import Mathlib

/-!
Verification development for the PDF-Organizer reconciliation core
(`src/app.py`).  The Python source is shallowly embedded: page text is a
`String`, regular-expression scans are modelled as structurally recursive
scanners over `List Char`, the matching loop of `organize_pdfs` is modelled
as explicit state passing, and the assembled PDF is a `List OutPage` where
each constructor stands for one emitted page.
-/

/-! ## Character classes (ASCII model of Python's `\w`, `\s`, `\d`, `[A-Z0-9]`) -/

def isWordChar (c : Char) : Bool :=
  ('A' ≤ c && c ≤ 'Z') || ('a' ≤ c && c ≤ 'z') || ('0' ≤ c && c ≤ '9') || c == '_'

def isUpperAlnum (c : Char) : Bool :=
  ('A' ≤ c && c ≤ 'Z') || ('0' ≤ c && c ≤ '9')

def isUpperAlpha (c : Char) : Bool :=
  'A' ≤ c && c ≤ 'Z'

def isDigitChar (c : Char) : Bool :=
  '0' ≤ c && c ≤ '9'

def isSpaceChar (c : Char) : Bool :=
  c == ' ' || c == '\t' || c == '\n' || c == '\r' || c == '\x0b' || c == '\x0c'

/-- Character class `[:\s]` used by the label quantity pattern `Qty[:\s]+(\d+)`. -/
def isSepChar (c : Char) : Bool :=
  c == ':' || isSpaceChar c

/-- Trailing `\b` after a word character: next char absent or not a word char. -/
def okAfter : List Char → Bool
  | [] => true
  | c :: _ => !isWordChar c

/-- Leading `\b` before a word character: previous char absent or not a word char. -/
def noWordBefore : Option Char → Bool
  | none => true
  | some c => !isWordChar c

/-! ## The three SKU recognition patterns of `extract_skus_from_text`
(`app.py` lines 19-44).  Each `matchNAt` decides whether the pattern matches
at the head of the list (the leading `\b` is checked by the scanner, which
tracks the previous character). -/

/-- Pattern 1: `\b[A-Z0-9]{2}-[A-Z0-9]{4}-[A-Z0-9]{4}\b` at the head. -/
def match1At : List Char → Bool
  | a :: b :: h1 :: c1 :: c2 :: c3 :: c4 :: h2 :: d1 :: d2 :: d3 :: d4 :: rest =>
      isUpperAlnum a && isUpperAlnum b && (h1 == '-') &&
      isUpperAlnum c1 && isUpperAlnum c2 && isUpperAlnum c3 && isUpperAlnum c4 &&
      (h2 == '-') &&
      isUpperAlnum d1 && isUpperAlnum d2 && isUpperAlnum d3 && isUpperAlnum d4 &&
      okAfter rest
  | _ => false

/-- Pattern 3: `\b[A-Z][0-9]-[A-Z0-9]{4}-[A-Z0-9]{4}\b` at the head. -/
def match3At : List Char → Bool
  | a :: b :: h1 :: c1 :: c2 :: c3 :: c4 :: h2 :: d1 :: d2 :: d3 :: d4 :: rest =>
      isUpperAlpha a && isDigitChar b && (h1 == '-') &&
      isUpperAlnum c1 && isUpperAlnum c2 && isUpperAlnum c3 && isUpperAlnum c4 &&
      (h2 == '-') &&
      isUpperAlnum d1 && isUpperAlnum d2 && isUpperAlnum d3 && isUpperAlnum d4 &&
      okAfter rest
  | _ => false

/-- `l.take n` has length `n` and consists of `[A-Z0-9]` characters only. -/
def takeAlnum (n : Nat) (l : List Char) : Bool :=
  (l.take n).length == n && (l.take n).all isUpperAlnum

/-- Pattern 2: `\bB[A-Z0-9]{9,10}\b` at the head; greedy, so ten repetitions
are tried before nine.  Returns the total match length (11 or 10). -/
def match2At : List Char → Option Nat
  | 'B' :: rest =>
      if takeAlnum 10 rest && okAfter (rest.drop 10) then some 11
      else if takeAlnum 9 rest && okAfter (rest.drop 9) then some 10
      else none
  | _ => none

/-! ## `re.findall` scanners: leftmost, non-overlapping matches.
`skip` counts characters still to be consumed by the previous match; `prev`
is the last consumed character (for the leading `\b`). -/

def scanP1 : Option Char → Nat → List Char → List String
  | _, _, [] => []
  | _, Nat.succ k, c :: rest => scanP1 (some c) k rest
  | prev, 0, c :: rest =>
      if noWordBefore prev && match1At (c :: rest) then
        String.mk ((c :: rest).take 12) :: scanP1 (some c) 11 rest
      else scanP1 (some c) 0 rest

def scanP3 : Option Char → Nat → List Char → List String
  | _, _, [] => []
  | _, Nat.succ k, c :: rest => scanP3 (some c) k rest
  | prev, 0, c :: rest =>
      if noWordBefore prev && match3At (c :: rest) then
        String.mk ((c :: rest).take 12) :: scanP3 (some c) 11 rest
      else scanP3 (some c) 0 rest

def scanP2 : Option Char → Nat → List Char → List String
  | _, _, [] => []
  | _, Nat.succ k, c :: rest => scanP2 (some c) k rest
  | prev, 0, c :: rest =>
      if noWordBefore prev then
        match match2At (c :: rest) with
        | some n => String.mk ((c :: rest).take n) :: scanP2 (some c) (n - 1) rest
        | none => scanP2 (some c) 0 rest
      else scanP2 (some c) 0 rest

def findall1 (text : List Char) : List String := scanP1 none 0 text

def findall2 (text : List Char) : List String := scanP2 none 0 text

def findall3 (text : List Char) : List String := scanP3 none 0 text

/-- The duplicate-removal loop of `extract_skus_from_text` (`app.py` 36-42):
keep the first occurrence of each SKU, preserving order.  `seen` models the
Python `set` (only membership is used). -/
def dedupSkusAux : List String → List String → List String
  | _, [] => []
  | seen, s :: rest =>
      if s ∈ seen then dedupSkusAux seen rest
      else s :: dedupSkusAux (s :: seen) rest

def dedupSkus (l : List String) : List String := dedupSkusAux [] l

/-- `extract_skus_from_text` (`app.py` 19-44): pool the matches of the three
patterns in pattern order, then remove duplicates preserving first-seen
order. -/
def extract_skus_from_text (text : String) : List String :=
  dedupSkus (findall1 text.data ++ findall2 text.data ++ findall3 text.data)

/-! ## Quantity extraction (`app.py` 447-457 and 499-502) -/

/-- Value of a digit run, as Python `int()` on the captured group. -/
def digitsToNat (ds : List Char) : Nat :=
  ds.foldl (fun n c => 10 * n + (c.toNat - 48)) 0

/-- Consume the literal `lit` from the head of `l`; `re.escape` makes the SKU
a literal in the checklist quantity pattern. -/
def dropLit : List Char → List Char → Option (List Char)
  | [], l => some l
  | p :: ps, c :: l => if c == p then dropLit ps l else none
  | _ :: _, [] => none

/-- Match `{re.escape(sku)}\s+(\d+)` at the head of `l`: the SKU literally,
then one or more whitespace characters, then a digit run (the captured
quantity).  The character classes `\s` and `\d` are disjoint, so the greedy
scan takes the maximal whitespace run and then the maximal digit run. -/
def matchSkuQtyAt (sku : List Char) (l : List Char) : Option Nat :=
  match dropLit sku l with
  | none => none
  | some r1 =>
      if (r1.takeWhile isSpaceChar).isEmpty then none
      else
        let r2 := r1.dropWhile isSpaceChar
        let ds := r2.takeWhile isDigitChar
        if ds.isEmpty then none else some (digitsToNat ds)

/-- `re.search`: try the anchored matcher `f` at every position, leftmost
position first. -/
def searchLeft (f : List Char → Option Nat) : List Char → Option Nat
  | [] => f []
  | c :: rest =>
      match f (c :: rest) with
      | some q => some q
      | none => searchLeft f rest

/-- Expected quantity of `sku` on a checklist page (`app.py` 448-457):
the leftmost `sku\s+(\d+)` match, defaulting to 0. -/
def sku_expected_qty (text : String) (sku : String) : Nat :=
  match searchLeft (matchSkuQtyAt sku.data) text.data with
  | some q => q
  | none => 0

/-- Match `Qty[:\s]+(\d+)` (case-insensitive `Qty`) at the head of `l`
(`app.py` 500-502): `Qty`, then one or more colon/whitespace characters,
then a digit run. -/
def matchQtyAt : List Char → Option Nat
  | q :: t :: y :: rest =>
      if (q == 'Q' || q == 'q') && (t == 'T' || t == 't') && (y == 'Y' || y == 'y') then
        if (rest.takeWhile isSepChar).isEmpty then none
        else
          let r2 := rest.dropWhile isSepChar
          let ds := r2.takeWhile isDigitChar
          if ds.isEmpty then none else some (digitsToNat ds)
      else none
  | _ => none

/-- Unit quantity of a label page (`app.py` 499-502): the leftmost
`Qty[:\s]+(\d+)` match, defaulting to 1. -/
def label_qty (text : String) : Nat :=
  match searchLeft matchQtyAt text.data with
  | some q => q
  | none => 1

/-- Modelled from the spec: the specification (§4.2) describes the label
quantity marker as `Qty` followed by OPTIONAL punctuation/whitespace and a
digit run, i.e. the separator class repeated zero or more times.  This
definition follows the spec's words and exists only to be compared with
`matchQtyAt`, which embeds the source pattern `Qty[:\s]+(\d+)`. -/
def matchQtyAtPerSpec : List Char → Option Nat
  | q :: t :: y :: rest =>
      if (q == 'Q' || q == 'q') && (t == 'T' || t == 't') && (y == 'Y' || y == 'y') then
        let r2 := rest.dropWhile isSepChar
        let ds := r2.takeWhile isDigitChar
        if ds.isEmpty then none else some (digitsToNat ds)
      else none
  | _ => none

/-- Modelled from the spec: label unit quantity per the spec's words. -/
def label_qty_per_spec (text : String) : Nat :=
  match searchLeft matchQtyAtPerSpec text.data with
  | some q => q
  | none => 1

/-! ## Status classification and banner text (`create_status_overlay`,
`app.py` 46-94).  The graphic artifact itself is out of scope; the decision
logic (status and banner strings, minus the leading pictograph glyph) is
embedded. -/

inductive MatchStatus where
  | MATCH
  | SURPLUS
  | SHORTAGE
deriving DecidableEq

/-- The status decision and banner text of `create_status_overlay`
(`app.py` 52-67): `difference = actual - expected`; zero is a match, positive
is a surplus (`EXTRA`), negative is a shortage (`MISSING`, via
`abs(difference)`). -/
def create_status_overlay (expected actual : Int) : MatchStatus × String :=
  if actual - expected = 0 then
    (MatchStatus.MATCH,
      toString actual ++ "/" ++ toString expected ++ " Labels - Perfect Match")
  else if actual - expected > 0 then
    (MatchStatus.SURPLUS,
      toString actual ++ "/" ++ toString expected ++ " Labels - " ++
        toString (actual - expected) ++ " EXTRA")
  else
    (MatchStatus.SHORTAGE,
      toString actual ++ "/" ++ toString expected ++ " Labels - " ++
        toString (actual - expected).natAbs ++ " MISSING")

/-! ## Page records built by `organize_pdfs` (`app.py` 431-522).
The opaque pypdf page handle is identified by its 1-based `page_num` within
its source document. -/

structure ChecklistPage where
  page_num : Nat
  skus : List String
  sku_quantities : List (String × Nat)
  text : String
deriving DecidableEq

structure LabelPage where
  page_num : Nat
  sku : Option String
  qty : Nat
  text : String
deriving DecidableEq

/-- Checklist processing loop (`app.py` 434-465): enumerate pages (1-based),
extract SKUs, SKIP pages with no SKUs (`continue`, line 443-445), and record
per-SKU expected quantities. -/
def processChecklistAux : Nat → List String → List ChecklistPage
  | _, [] => []
  | i, t :: ts =>
      let skus := extract_skus_from_text t
      if skus.isEmpty then processChecklistAux (i + 1) ts
      else
        { page_num := i + 1, skus := skus,
          sku_quantities := skus.map (fun s => (s, sku_expected_qty t s)),
          text := t } :: processChecklistAux (i + 1) ts

def processChecklistPages (ts : List String) : List ChecklistPage :=
  processChecklistAux 0 ts

/-- Label processing loop (`app.py` 492-515): every page is kept; the label's
`sku` is the FIRST extracted SKU (`skus[0] if skus else None`, line 497). -/
def processLabelAux : Nat → List String → List LabelPage
  | _, [] => []
  | i, t :: ts =>
      { page_num := i + 1, sku := (extract_skus_from_text t).head?,
        qty := label_qty t, text := t } :: processLabelAux (i + 1) ts

def processLabelPages (ts : List String) : List LabelPage :=
  processLabelAux 0 ts

/-- `labels_by_sku` (`app.py` 526-529): group labels by their (single)
detected SKU; labels with no SKU are excluded.  The bucket of code `c` is the
sub-list, in source order, of labels whose `sku` is `c`; the defaultdict "has
the key" exactly when this bucket is nonempty. -/
def labels_by_sku (labels : List LabelPage) (c : String) : List LabelPage :=
  labels.filter (fun l => l.sku == some c)

/-- Resolution of one checklist item code (`app.py` 542-568): direct lookup
first; only when it fails (`elif`) is the CSV alias mapping consulted; if
both fail the code contributes no labels. -/
def resolveCode (labels : List LabelPage) (mapping : String → Option String)
    (sku : String) : List LabelPage :=
  if !(labels_by_sku labels sku).isEmpty then labels_by_sku labels sku
  else
    match mapping sku with
    | some mapped =>
        if !(labels_by_sku labels mapped).isEmpty then labels_by_sku labels mapped
        else []
    | none => []

/-- State of the matching loop for one checklist page: the labels appended so
far, the GLOBAL `matched_label_pages` set (used only for unmatched
detection), and the per-checklist `added_to_this_checklist` set.  The two
sets are modelled as lists used through membership only. -/
structure AddState where
  matching : List LabelPage
  globalMatched : List Nat
  added : List Nat

/-- Appending one candidate label (`app.py` 547-552 and 559-564): gated only
by the PER-CHECKLIST `added` set; the global set is extended but never
consulted here. -/
def addOne (st : AddState) (l : LabelPage) : AddState :=
  if l.page_num ∈ st.added then st
  else
    { matching := st.matching ++ [l],
      globalMatched := st.globalMatched ++ [l.page_num],
      added := st.added ++ [l.page_num] }

/-- Matching one checklist page (`app.py` 537-570): fold over its item codes
in extracted order, appending the resolved labels in bucket (source) order.
Returns the group's labels and the updated global matched set. -/
def matchOneChecklist (labels : List LabelPage) (mapping : String → Option String)
    (ck : ChecklistPage) (g0 : List Nat) : List LabelPage × List Nat :=
  let final := ck.skus.foldl
    (fun st sku => (resolveCode labels mapping sku).foldl addOne st)
    { matching := [], globalMatched := g0, added := [] }
  (final.matching, final.globalMatched)

/-- The matching loop over all checklist pages in source order, threading the
global matched set. -/
def matchGo (labels : List LabelPage) (mapping : String → Option String) :
    List ChecklistPage → List Nat → List (ChecklistPage × List LabelPage) × List Nat
  | [], g => ([], g)
  | ck :: cks, g =>
      let r := matchOneChecklist labels mapping ck g
      let rest := matchGo labels mapping cks r.2
      ((ck, r.1) :: rest.1, rest.2)

/-- `matched_groups` and `matched_label_pages` after the whole matching step
(`app.py` 533-570). -/
def matchAll (checklists : List ChecklistPage) (labels : List LabelPage)
    (mapping : String → Option String) :
    List (ChecklistPage × List LabelPage) × List Nat :=
  matchGo labels mapping checklists []

/-- `unmatched_labels` (`app.py` 573): labels whose page index never entered
the global matched set, in source order. -/
def unmatchedLabels (labels : List LabelPage) (g : List Nat) : List LabelPage :=
  labels.filter (fun l => !(g.contains l.page_num))

/-! ## Reconciliation and assembly (`app.py` 594-627) -/

/-- `total_expected` (`app.py` 597): sum of the checklist's declared per-SKU
quantities. -/
def total_expected (ck : ChecklistPage) : Nat :=
  (ck.sku_quantities.map Prod.snd).sum

/-- `total_actual` (`app.py` 600): sum of the per-label unit quantities of
the assigned labels — NOT the number of label pages. -/
def total_actual (ls : List LabelPage) : Nat :=
  (ls.map LabelPage.qty).sum

/-- One page of the assembled output document.  `checklist` is the source
checklist page with the status overlay (carrying the expected/actual totals
the overlay was rendered from) merged on top; `label` is a copied label
page; `separator` is the unmatched-labels warning page. -/
inductive OutPage where
  | summary
  | checklist (page_num expected actual : Nat)
  | label (page_num : Nat)
  | separator (count : Nat)
deriving DecidableEq

/-- Pages emitted for one matched group (`app.py` 595-616): the annotated
checklist page, then its labels in matcher order. -/
def groupPages (g : ChecklistPage × List LabelPage) : List OutPage :=
  OutPage.checklist g.1.page_num (total_expected g.1) (total_actual g.2) ::
    g.2.map (fun l => OutPage.label l.page_num)

/-- The assembled output (`app.py` 584-627): summary page, then each group,
then — only if unmatched labels exist — the separator page and the unmatched
labels in source order. -/
def assemble (groups : List (ChecklistPage × List LabelPage))
    (unmatched : List LabelPage) : List OutPage :=
  OutPage.summary ::
    ((groups.map groupPages).flatten ++
      (if unmatched.isEmpty then []
       else OutPage.separator unmatched.length ::
         unmatched.map (fun l => OutPage.label l.page_num)))

/-- The `organize_pdfs` request handler (`app.py` 386-658), modelled from the
upload checks to the assembled page sequence.  A document is `none` when the
corresponding file is absent and `some texts` when present, `texts` being
the per-page extracted text.  The alias CSV is modelled as the
(last-occurrence-wins) mapping it is parsed into. -/
def organize_pdfs (checklist_file labels_file : Option (List String))
    (mapping : String → Option String) : Except String (List OutPage) :=
  match checklist_file with
  | none => .error "No checklist file uploaded"
  | some ctexts =>
    match labels_file with
    | none => .error "No labels file uploaded"
    | some ltexts =>
      let checklists := processChecklistPages ctexts
      if checklists.isEmpty then .error "No SKUs found in checklist PDF"
      else
        let labels := processLabelPages ltexts
        let r := matchAll checklists labels mapping
        .ok (assemble r.1 (unmatchedLabels labels r.2))

/-! ## Derived notions used by the statements below -/

/-- The page indices of a list of label pages. -/
def pns (ls : List LabelPage) : List Nat := ls.map LabelPage.page_num

/-- First-occurrence-by-page-index filter: keeps a label only if its
`page_num` was not seen before.  This is the closed form of the
`added_to_this_checklist` gating. -/
def pnDedupAux : List Nat → List LabelPage → List LabelPage
  | _, [] => []
  | seen, l :: ls =>
      if l.page_num ∈ seen then pnDedupAux seen ls
      else l :: pnDedupAux (l.page_num :: seen) ls

/-- Closed form of one checklist page's matched labels: concatenate, over the
page's item codes in extracted order, the resolved label buckets in source
order, then keep the first occurrence of each label page index. -/
def canonMatch (labels : List LabelPage) (mapping : String → Option String)
    (ck : ChecklistPage) : List LabelPage :=
  pnDedupAux [] ((ck.skus.map (resolveCode labels mapping)).flatten)

/-- Index of the first block (resolved code bucket) that contains a label
with the given label's page index — the label's governing item code. -/
def govIdx (blocks : List (List LabelPage)) (l : LabelPage) : Nat :=
  blocks.findIdx (fun b => b.any (fun x => x.page_num == l.page_num))

/-- Is this output page the annotated checklist page numbered `k`? -/
def isCk (k : Nat) : OutPage → Bool
  | OutPage.checklist pn _ _ => pn == k
  | _ => false

/-- Is this output page a copy of label page `k`? -/
def isLb (k : Nat) : OutPage → Bool
  | OutPage.label pn => pn == k
  | _ => false

/-- The checklist page number carried by an output page, when it is an
annotated checklist page. -/
def checklistPnOf : OutPage → Option Nat
  | OutPage.checklist pn _ _ => some pn
  | _ => none

/-! ## Supporting lemmas: duplicate removal -/

theorem dedupSkusAux_sublist (seen l : List String) :
    (dedupSkusAux seen l).Sublist l := by
  induction l generalizing seen with
  | nil => simp [dedupSkusAux]
  | cons s rest ih =>
      simp only [dedupSkusAux]
      split
      · exact (ih seen).trans (List.sublist_cons_self s rest)
      · exact (ih (s :: seen)).cons₂ s

theorem dedupSkusAux_not_mem_seen (seen l : List String) (s : String)
    (h : s ∈ dedupSkusAux seen l) : s ∉ seen := by
  induction l generalizing seen with
  | nil => simp [dedupSkusAux] at h
  | cons t rest ih =>
      simp only [dedupSkusAux] at h
      split at h
      · exact ih seen h
      · rcases List.mem_cons.mp h with h1 | h1
        · subst h1; assumption
        · intro hs
          exact ih (t :: seen) h1 (List.mem_cons_of_mem t hs)

theorem dedupSkusAux_nodup (seen l : List String) :
    (dedupSkusAux seen l).Nodup := by
  induction l generalizing seen with
  | nil => simp [dedupSkusAux]
  | cons s rest ih =>
      simp only [dedupSkusAux]
      split
      · exact ih seen
      · refine List.nodup_cons.mpr ⟨?_, ih (s :: seen)⟩
        intro hmem
        exact dedupSkusAux_not_mem_seen (s :: seen) rest s hmem (List.mem_cons_self s seen)

theorem dedupSkusAux_mem (seen l : List String) (s : String) :
    s ∈ dedupSkusAux seen l ↔ s ∈ l ∧ s ∉ seen := by
  induction l generalizing seen with
  | nil => simp [dedupSkusAux]
  | cons t rest ih =>
      simp only [dedupSkusAux]
      split
      · rename_i ht
        rw [ih seen]
        constructor
        · rintro ⟨h1, h2⟩; exact ⟨List.mem_cons_of_mem t h1, h2⟩
        · rintro ⟨h1, h2⟩
          rcases List.mem_cons.mp h1 with h1 | h1
          · subst h1; exact absurd ht h2
          · exact ⟨h1, h2⟩
      · rename_i ht
        simp only [List.mem_cons, ih (t :: seen), List.mem_cons]
        constructor
        · rintro (h1 | ⟨h1, h2⟩)
          · subst h1; exact ⟨Or.inl rfl, ht⟩
          · exact ⟨Or.inr h1, fun hs => h2 (Or.inr hs)⟩
        · rintro ⟨h1 | h1, h2⟩
          · exact Or.inl h1
          · by_cases hst : s = t
            · exact Or.inl hst
            · exact Or.inr ⟨h1, fun hs => (by
                rcases hs with hs | hs
                · exact hst hs
                · exact h2 hs)⟩

/-- Claim C6: `extract_skus_from_text` pools the matches of the three
recognition patterns in pattern order and removes duplicates preserving
first-seen order; the empty string (and any text with no matches) yields the
empty sequence; the result is a duplicate-free, order-preserving sub-list of
the pooled matches with the same members. -/
theorem C6_extractor :
    extract_skus_from_text "" = [] ∧
    ∀ text : String,
      extract_skus_from_text text =
        dedupSkus (findall1 text.data ++ findall2 text.data ++ findall3 text.data) ∧
      (extract_skus_from_text text).Sublist
        (findall1 text.data ++ findall2 text.data ++ findall3 text.data) ∧
      (extract_skus_from_text text).Nodup ∧
      ∀ s : String, s ∈ extract_skus_from_text text ↔
        s ∈ findall1 text.data ++ findall2 text.data ++ findall3 text.data := by
  refine ⟨by decide, fun text => ⟨rfl, ?_, ?_, ?_⟩⟩
  · exact dedupSkusAux_sublist [] _
  · exact dedupSkusAux_nodup [] _
  · intro s
    rw [extract_skus_from_text, dedupSkus, dedupSkusAux_mem]
    simp

/-- Claim C4: status classification is total and exclusive, with
MATCH ⟺ actual = expected, SURPLUS ⟺ actual > expected,
SHORTAGE ⟺ actual < expected, and the banner text stating the surplus
count `actual - expected` resp. the missing count `expected - actual`. -/
theorem C4_status_total_exclusive (expected actual : Int) :
    ((create_status_overlay expected actual).1 = MatchStatus.MATCH ∨
     (create_status_overlay expected actual).1 = MatchStatus.SURPLUS ∨
     (create_status_overlay expected actual).1 = MatchStatus.SHORTAGE) ∧
    ((create_status_overlay expected actual).1 = MatchStatus.MATCH ↔ actual = expected) ∧
    ((create_status_overlay expected actual).1 = MatchStatus.SURPLUS ↔ expected < actual) ∧
    ((create_status_overlay expected actual).1 = MatchStatus.SHORTAGE ↔ actual < expected) ∧
    (expected < actual →
      (create_status_overlay expected actual).2 =
        toString actual ++ "/" ++ toString expected ++ " Labels - " ++
          toString (actual - expected) ++ " EXTRA") ∧
    (actual < expected →
      (create_status_overlay expected actual).2 =
        toString actual ++ "/" ++ toString expected ++ " Labels - " ++
          toString (actual - expected).natAbs ++ " MISSING" ∧
      ((actual - expected).natAbs : Int) = expected - actual) := by
  unfold create_status_overlay
  split_ifs with h0 h1
  · refine ⟨Or.inl rfl, ?_, ?_, ?_, ?_, ?_⟩
    · exact ⟨fun _ => (by omega), fun _ => rfl⟩
    · exact ⟨fun h => (by cases h), fun h => absurd h (by omega)⟩
    · exact ⟨fun h => (by cases h), fun h => absurd h (by omega)⟩
    · intro h; exact absurd h (by omega)
    · intro h; exact absurd h (by omega)
  · refine ⟨Or.inr (Or.inl rfl), ?_, ?_, ?_, ?_, ?_⟩
    · exact ⟨fun h => (by cases h), fun h => absurd h (by omega)⟩
    · exact ⟨fun _ => (by omega), fun _ => rfl⟩
    · exact ⟨fun h => (by cases h), fun h => absurd h (by omega)⟩
    · intro _; rfl
    · intro h; exact absurd h (by omega)
  · refine ⟨Or.inr (Or.inr rfl), ?_, ?_, ?_, ?_, ?_⟩
    · exact ⟨fun h => (by cases h), fun h => absurd h (by omega)⟩
    · exact ⟨fun h => (by cases h), fun h => absurd h (by omega)⟩
    · exact ⟨fun _ => (by omega), fun _ => rfl⟩
    · intro h; exact absurd h (by omega)
    · intro _; exact ⟨rfl, by omega⟩

/-- Witness for C4 at `expected = 5`, `actual = 2`. -/
theorem C4_witness :
    (create_status_overlay 5 2).2 =
      toString (2 : Int) ++ "/" ++ toString (5 : Int) ++ " Labels - " ++
        toString ((2 - 5 : Int)).natAbs ++ " MISSING" ∧
    (((2 - 5 : Int)).natAbs : Int) = 5 - 2 :=
  (C4_status_total_exclusive 5 2).2.2.2.2.2 (by decide)

/-- Claim C3: the alias table is consulted only when direct lookup fails.
When the code has a direct bucket, the result is that bucket and is
independent of the alias mapping; when direct lookup fails and the alias
target has a bucket, that bucket is used; when both fail, the code
contributes no labels (and no error: `resolveCode` is total). -/
theorem C3_alias_only_on_miss (labels : List LabelPage)
    (mapping mapping2 : String → Option String) (sku : String) :
    (labels_by_sku labels sku ≠ [] →
      resolveCode labels mapping sku = labels_by_sku labels sku ∧
      resolveCode labels mapping sku = resolveCode labels mapping2 sku) ∧
    (labels_by_sku labels sku = [] →
      ∀ mapped, mapping sku = some mapped →
        labels_by_sku labels mapped ≠ [] →
        resolveCode labels mapping sku = labels_by_sku labels mapped) ∧
    (labels_by_sku labels sku = [] →
      (∀ mapped, mapping sku = some mapped → labels_by_sku labels mapped = []) →
      resolveCode labels mapping sku = []) := by
  refine ⟨fun h => ?_, fun h mapped hm hne => ?_, fun h hall => ?_⟩
  · have hb : (labels_by_sku labels sku).isEmpty = false := by
      simpa [List.isEmpty_iff] using h
    constructor <;> simp [resolveCode, hb]
  · have hb : (labels_by_sku labels sku).isEmpty = true := by
      simpa [List.isEmpty_iff] using h
    have hb2 : (labels_by_sku labels mapped).isEmpty = false := by
      simpa [List.isEmpty_iff] using hne
    simp [resolveCode, hb, hm, hb2]
  · have hb : (labels_by_sku labels sku).isEmpty = true := by
      simpa [List.isEmpty_iff] using h
    cases hm : mapping sku with
    | none => simp [resolveCode, hb, hm]
    | some mapped =>
        have hb2 : (labels_by_sku labels mapped).isEmpty = true := by
          simpa [List.isEmpty_iff] using hall mapped hm
        simp [resolveCode, hb, hm, hb2]

/-- Witness for C3: a one-label pool where the direct bucket for
`N5-96TU-TT9Z` is nonempty, under a mapping that (maliciously) aliases that
same code elsewhere — the alias is not consulted. -/
theorem C3_witness :
    resolveCode [⟨1, some "N5-96TU-TT9Z", 1, "t"⟩]
        (fun _ => some "B0090IFLG6") "N5-96TU-TT9Z" =
      labels_by_sku [⟨1, some "N5-96TU-TT9Z", 1, "t"⟩] "N5-96TU-TT9Z" ∧
    resolveCode [⟨1, some "N5-96TU-TT9Z", 1, "t"⟩]
        (fun _ => some "B0090IFLG6") "N5-96TU-TT9Z" =
      resolveCode [⟨1, some "N5-96TU-TT9Z", 1, "t"⟩] (fun _ => none) "N5-96TU-TT9Z" :=
  (C3_alias_only_on_miss [⟨1, some "N5-96TU-TT9Z", 1, "t"⟩]
    (fun _ => some "B0090IFLG6") (fun _ => none) "N5-96TU-TT9Z").1 (by decide)

/-! ## Supporting lemmas: leftmost search -/

theorem searchLeft_eq_some_iff (f : List Char → Option Nat) (l : List Char) (q : Nat) :
    searchLeft f l = some q ↔
      ∃ i, f (l.drop i) = some q ∧ ∀ j, j < i → f (l.drop j) = none := by
  induction l with
  | nil =>
      simp only [searchLeft, List.drop_nil]
      constructor
      · intro h; exact ⟨0, h, fun j hj => absurd hj (Nat.not_lt_zero j)⟩
      · rintro ⟨i, hi, _⟩; exact hi
  | cons c rest ih =>
      simp only [searchLeft]
      cases hf : f (c :: rest) with
      | some q0 =>
          simp only [Option.some.injEq]
          constructor
          · rintro rfl
            exact ⟨0, by simpa using hf, fun j hj => absurd hj (Nat.not_lt_zero j)⟩
          · rintro ⟨i, hi, hmin⟩
            cases i with
            | zero => simp only [List.drop_zero] at hi; rw [hf] at hi; exact (Option.some.injEq _ _).mp hi
            | succ i0 =>
                have := hmin 0 (Nat.succ_pos i0)
                simp only [List.drop_zero] at this
                rw [hf] at this; cases this
      | none =>
          rw [ih]
          constructor
          · rintro ⟨i, hi, hmin⟩
            refine ⟨i + 1, by simpa using hi, fun j hj => ?_⟩
            cases j with
            | zero => simpa using hf
            | succ j0 =>
                have := hmin j0 (Nat.lt_of_succ_lt_succ hj)
                simpa using this
          · rintro ⟨i, hi, hmin⟩
            cases i with
            | zero => simp only [List.drop_zero] at hi; rw [hf] at hi; cases hi
            | succ i0 =>
                refine ⟨i0, by simpa using hi, fun j hj => ?_⟩
                have := hmin (j + 1) (Nat.succ_lt_succ hj)
                simpa using this

theorem searchLeft_eq_none_iff (f : List Char → Option Nat) (l : List Char) :
    searchLeft f l = none ↔ ∀ i, f (l.drop i) = none := by
  induction l with
  | nil =>
      simp only [searchLeft, List.drop_nil]
      constructor
      · intro h _; exact h
      · intro h; exact h 0
  | cons c rest ih =>
      simp only [searchLeft]
      cases hf : f (c :: rest) with
      | some q0 =>
          simp only []
          constructor
          · intro h; cases h
          · intro h
            have := h 0
            simp only [List.drop_zero] at this
            rw [hf] at this; cases this
      | none =>
          rw [ih]
          constructor
          · intro h i
            cases i with
            | zero => simpa using hf
            | succ i0 => simpa using h i0
          · intro h i
            have := h (i + 1)
            simpa using this

/-- A leftmost search that could succeed somewhere does succeed, at the
leftmost matching position, and returns that position's value. -/
theorem searchLeft_of_exists (f : List Char → Option Nat) (l : List Char)
    (h : ∃ i q, f (l.drop i) = some q) :
    ∃ i q, f (l.drop i) = some q ∧ (∀ j, j < i → f (l.drop j) = none) ∧
      searchLeft f l = some q := by
  cases hs : searchLeft f l with
  | none =>
      rcases h with ⟨i, q, hi⟩
      have := (searchLeft_eq_none_iff f l).mp hs i
      rw [hi] at this; cases this
  | some q0 =>
      rcases (searchLeft_eq_some_iff f l q0).mp hs with ⟨i, hi, hmin⟩
      exact ⟨i, q0, hi, hmin, rfl⟩

/-- Counterexample to claim C7 as stated: on the text `"Qty5"` the marker
`Qty` is followed by a digit run with NO separator; the spec-side reading
(optional punctuation/whitespace) yields 5, but the source pattern
`Qty[:\s]+(\d+)` requires at least one separator, so the unit quantity
defaults to 1. -/
theorem C7_counterexample :
    label_qty_per_spec "Qty5" = 5 ∧ label_qty "Qty5" = 1 := by decide

/-- Claim C7 (amended: the label marker `Qty` must be followed by ONE OR
MORE colon/whitespace characters, not optional ones): the checklist expected
quantity is the digit run of the leftmost `sku` + whitespace + digits
occurrence, defaulting to 0; the label unit quantity is the digit run of the
leftmost case-insensitive `Qty` + separators + digits occurrence, defaulting
to 1. -/
theorem C7_quantity_extraction (text sku : String) :
    ((∃ i q, matchSkuQtyAt sku.data (text.data.drop i) = some q) →
      ∃ i q, matchSkuQtyAt sku.data (text.data.drop i) = some q ∧
        (∀ j, j < i → matchSkuQtyAt sku.data (text.data.drop j) = none) ∧
        sku_expected_qty text sku = q) ∧
    ((∀ i, matchSkuQtyAt sku.data (text.data.drop i) = none) →
      sku_expected_qty text sku = 0) ∧
    ((∃ i q, matchQtyAt (text.data.drop i) = some q) →
      ∃ i q, matchQtyAt (text.data.drop i) = some q ∧
        (∀ j, j < i → matchQtyAt (text.data.drop j) = none) ∧
        label_qty text = q) ∧
    ((∀ i, matchQtyAt (text.data.drop i) = none) → label_qty text = 1) := by
  refine ⟨fun h => ?_, fun h => ?_, fun h => ?_, fun h => ?_⟩
  · rcases searchLeft_of_exists _ _ h with ⟨i, q, hi, hmin, hs⟩
    exact ⟨i, q, hi, hmin, by rw [sku_expected_qty, hs]⟩
  · have hs := (searchLeft_eq_none_iff (matchSkuQtyAt sku.data) text.data).mpr h
    rw [sku_expected_qty, hs]
  · rcases searchLeft_of_exists _ _ h with ⟨i, q, hi, hmin, hs⟩
    exact ⟨i, q, hi, hmin, by rw [label_qty, hs]⟩
  · have hs := (searchLeft_eq_none_iff matchQtyAt text.data).mpr h
    rw [label_qty, hs]

/-- Witness for C7 on the text `"foo N5-96TU-TT9Z 12 Qty: 3"`: the checklist
quantity for `N5-96TU-TT9Z` is 12 and the label unit quantity is 3. -/
theorem C7_witness :
    ∃ i q, matchSkuQtyAt "N5-96TU-TT9Z".data
        (("foo N5-96TU-TT9Z 12 Qty: 3" : String).data.drop i) = some q ∧
      (∀ j, j < i → matchSkuQtyAt "N5-96TU-TT9Z".data
        (("foo N5-96TU-TT9Z 12 Qty: 3" : String).data.drop j) = none) ∧
      sku_expected_qty "foo N5-96TU-TT9Z 12 Qty: 3" "N5-96TU-TT9Z" = q :=
  (C7_quantity_extraction "foo N5-96TU-TT9Z 12 Qty: 3" "N5-96TU-TT9Z").1
    ⟨4, 12, by decide⟩

/-- Claim C5: for every MatchGroup, the reconciliation totals carried by the
assembled checklist page are the sum of the checklist's declared per-code
quantities and the sum of the assigned labels' unit quantities — not the
count of assigned label pages (a single label with quantity 3 contributes
3). -/
theorem C5_quantity_sums :
    (∀ ck : ChecklistPage, total_expected ck = (ck.sku_quantities.map Prod.snd).sum) ∧
    (∀ ls : List LabelPage, total_actual ls = (ls.map LabelPage.qty).sum) ∧
    (∀ (groups : List (ChecklistPage × List LabelPage)) (unmatched : List LabelPage)
        (grp : ChecklistPage × List LabelPage), grp ∈ groups →
      OutPage.checklist grp.1.page_num (total_expected grp.1) (total_actual grp.2) ∈
        assemble groups unmatched) ∧
    total_actual [⟨1, none, 3, "x"⟩] = 3 ∧
    ([⟨1, none, 3, "x"⟩] : List LabelPage).length = 1 := by
  refine ⟨fun _ => rfl, fun _ => rfl, ?_, by decide, by decide⟩
  intro groups unmatched grp hgrp
  apply List.mem_cons_of_mem
  apply List.mem_append_left
  apply List.mem_flatten.mpr
  exact ⟨groupPages grp, List.mem_map_of_mem groupPages hgrp, List.mem_cons_self _ _⟩

/-- Witness for C5: a concrete group of one checklist page and one
quantity-3 label inside a one-group assembly. -/
theorem C5_witness :
    OutPage.checklist (⟨1, ["A"], [("A", 3)], "t"⟩ : ChecklistPage).page_num
        (total_expected ⟨1, ["A"], [("A", 3)], "t"⟩)
        (total_actual [⟨1, some "A", 3, "x"⟩]) ∈
      assemble [(⟨1, ["A"], [("A", 3)], "t"⟩, [⟨1, some "A", 3, "x"⟩])] [] :=
  C5_quantity_sums.2.2.1 [(⟨1, ["A"], [("A", 3)], "t"⟩, [⟨1, some "A", 3, "x"⟩])] []
    (⟨1, ["A"], [("A", 3)], "t"⟩, [⟨1, some "A", 3, "x"⟩]) (List.mem_cons_self _ _)

/-! ## Supporting lemmas: closed form of the matching loop -/

theorem pnDedupAux_congr (seen seen2 : List Nat) (L : List LabelPage)
    (h : ∀ p, p ∈ seen ↔ p ∈ seen2) : pnDedupAux seen L = pnDedupAux seen2 L := by
  induction L generalizing seen seen2 with
  | nil => rfl
  | cons l ls ih =>
      simp only [pnDedupAux]
      by_cases hl : l.page_num ∈ seen
      · rw [if_pos hl, if_pos ((h _).mp hl)]
        exact ih _ _ h
      · rw [if_neg hl, if_neg (fun hx => hl ((h _).mpr hx))]
        congr 1
        apply ih
        intro p
        simp [List.mem_cons, h p]

theorem foldl_addOne_eq (L : List LabelPage) (st : AddState) :
    L.foldl addOne st =
      { matching := st.matching ++ pnDedupAux st.added L,
        globalMatched := st.globalMatched ++ pns (pnDedupAux st.added L),
        added := st.added ++ pns (pnDedupAux st.added L) } := by
  induction L generalizing st with
  | nil => simp [pnDedupAux, pns]
  | cons l ls ih =>
      simp only [List.foldl_cons, pnDedupAux]
      by_cases hl : l.page_num ∈ st.added
      · rw [if_pos hl, show addOne st l = st from by simp [addOne, hl]]
        exact ih st
      · rw [if_neg hl,
          show addOne st l =
            ⟨st.matching ++ [l], st.globalMatched ++ [l.page_num],
              st.added ++ [l.page_num]⟩ from by simp [addOne, hl]]
        rw [ih ⟨st.matching ++ [l], st.globalMatched ++ [l.page_num],
              st.added ++ [l.page_num]⟩]
        have hc : pnDedupAux (st.added ++ [l.page_num]) ls =
            pnDedupAux (l.page_num :: st.added) ls := by
          apply pnDedupAux_congr
          intro p
          simp [List.mem_append, List.mem_cons, or_comm]
        simp [hc, pns, List.append_assoc]

theorem foldl_resolve_eq (labels : List LabelPage) (mapping : String → Option String)
    (skus : List String) (st : AddState) :
    skus.foldl (fun st sku => (resolveCode labels mapping sku).foldl addOne st) st =
      ((skus.map (resolveCode labels mapping)).flatten).foldl addOne st := by
  induction skus generalizing st with
  | nil => rfl
  | cons s ss ih =>
      simp only [List.foldl_cons, List.map_cons, List.flatten_cons, List.foldl_append]
      exact ih _

theorem matchOneChecklist_eq (labels : List LabelPage) (mapping : String → Option String)
    (ck : ChecklistPage) (g0 : List Nat) :
    matchOneChecklist labels mapping ck g0 =
      (canonMatch labels mapping ck, g0 ++ pns (canonMatch labels mapping ck)) := by
  rw [matchOneChecklist, foldl_resolve_eq,
    foldl_addOne_eq _ ⟨[], g0, []⟩]
  rfl

theorem matchGo_eq (labels : List LabelPage) (mapping : String → Option String)
    (cks : List ChecklistPage) (g : List Nat) :
    matchGo labels mapping cks g =
      (cks.map (fun ck => (ck, canonMatch labels mapping ck)),
       g ++ (cks.map (fun ck => pns (canonMatch labels mapping ck))).flatten) := by
  induction cks generalizing g with
  | nil => simp [matchGo]
  | cons ck cks ih =>
      simp only [matchGo, matchOneChecklist_eq, List.map_cons, List.flatten_cons]
      rw [ih]
      simp [List.append_assoc]

theorem matchAll_eq (checklists : List ChecklistPage) (labels : List LabelPage)
    (mapping : String → Option String) :
    matchAll checklists labels mapping =
      (checklists.map (fun ck => (ck, canonMatch labels mapping ck)),
       (checklists.map (fun ck => pns (canonMatch labels mapping ck))).flatten) := by
  rw [matchAll, matchGo_eq]
  rfl

theorem pnDedupAux_sublist (seen : List Nat) (L : List LabelPage) :
    (pnDedupAux seen L).Sublist L := by
  induction L generalizing seen with
  | nil => simp [pnDedupAux]
  | cons l ls ih =>
      simp only [pnDedupAux]
      split
      · exact (ih seen).trans (List.sublist_cons_self l ls)
      · exact (ih (l.page_num :: seen)).cons₂ l

theorem pnDedupAux_pn_mem (seen : List Nat) (L : List LabelPage) (p : Nat) :
    p ∈ pns (pnDedupAux seen L) ↔ p ∈ pns L ∧ p ∉ seen := by
  induction L generalizing seen with
  | nil => simp [pnDedupAux, pns]
  | cons l ls ih =>
      simp only [pnDedupAux]
      split
      · rename_i hl
        rw [ih seen]
        simp only [pns, List.map_cons, List.mem_cons]
        constructor
        · rintro ⟨h1, h2⟩; exact ⟨Or.inr h1, h2⟩
        · rintro ⟨h1 | h1, h2⟩
          · subst h1; exact absurd hl h2
          · exact ⟨h1, h2⟩
      · rename_i hl
        simp only [pns, List.map_cons, List.mem_cons] at *
        rw [ih (l.page_num :: seen)]
        simp only [List.mem_cons]
        constructor
        · rintro (h1 | ⟨h1, h2⟩)
          · subst h1; exact ⟨Or.inl rfl, hl⟩
          · exact ⟨Or.inr h1, fun hs => h2 (Or.inr hs)⟩
        · rintro ⟨h1 | h1, h2⟩
          · exact Or.inl h1
          · by_cases hp : p = l.page_num
            · exact Or.inl hp
            · refine Or.inr ⟨h1, fun hs => ?_⟩
              rcases hs with hs | hs
              · exact hp hs
              · exact h2 hs

theorem pnDedupAux_pns_nodup (seen : List Nat) (L : List LabelPage) :
    (pns (pnDedupAux seen L)).Nodup := by
  induction L generalizing seen with
  | nil => simp [pnDedupAux, pns]
  | cons l ls ih =>
      simp only [pnDedupAux]
      split
      · exact ih seen
      · simp only [pns, List.map_cons]
        refine List.nodup_cons.mpr ⟨fun hmem => ?_, ih (l.page_num :: seen)⟩
        exact ((pnDedupAux_pn_mem _ _ _).mp hmem).2 (List.mem_cons_self _ _)

theorem mem_matchedSet_iff (checklists : List ChecklistPage) (labels : List LabelPage)
    (mapping : String → Option String) (p : Nat) :
    p ∈ (matchAll checklists labels mapping).2 ↔
      ∃ grp ∈ (matchAll checklists labels mapping).1, p ∈ pns grp.2 := by
  rw [matchAll_eq]
  simp only [List.mem_flatten, List.mem_map]
  constructor
  · rintro ⟨lnat, ⟨ck, hck, rfl⟩, hp⟩
    exact ⟨(ck, canonMatch labels mapping ck), ⟨ck, hck, rfl⟩, hp⟩
  · rintro ⟨grp, ⟨ck, hck, rfl⟩, hp⟩
    exact ⟨pns (canonMatch labels mapping ck), ⟨ck, hck, rfl⟩, hp⟩

theorem mem_unmatchedLabels_iff (labels : List LabelPage) (g : List Nat)
    (lab : LabelPage) :
    lab ∈ unmatchedLabels labels g ↔ lab ∈ labels ∧ lab.page_num ∉ g := by
  rw [unmatchedLabels, List.mem_filter]
  simp

/-- Counterexample to claim C1 as stated: two checklist pages both listing
`N5-96TU-TT9Z` and a single label carrying that code.  Label page 1 is
assigned to BOTH MatchGroups — the global consumed set does not remove a
label from the assignable pool of later checklists, so there is no
first-checklist-wins. -/
theorem C1_counterexample :
    ((matchAll (processChecklistPages ["N5-96TU-TT9Z 1", "N5-96TU-TT9Z 1"])
        (processLabelPages ["N5-96TU-TT9Z"]) (fun _ => none)).1.map
          (fun g => (g.1.page_num, pns g.2))) = [(1, [1]), (2, [1])] := by decide

/-- Claim C1 (amended): every label page lies in at least one MatchGroup or
in the unmatched set — never both, never neither — and within any single
MatchGroup each label page index occurs at most once.  However a label page
MAY belong to several different MatchGroups (see the counterexample): the
global consumed set only feeds unmatched detection, there is no
first-checklist-wins removal from the assignable pool. -/
theorem C1_partition (ctexts ltexts : List String) (mapping : String → Option String) :
    (∀ lab ∈ processLabelPages ltexts,
      ((∃ grp ∈ (matchAll (processChecklistPages ctexts) (processLabelPages ltexts)
            mapping).1, lab.page_num ∈ pns grp.2) ∧
        lab ∉ unmatchedLabels (processLabelPages ltexts)
          (matchAll (processChecklistPages ctexts) (processLabelPages ltexts) mapping).2) ∨
      ((¬ ∃ grp ∈ (matchAll (processChecklistPages ctexts) (processLabelPages ltexts)
            mapping).1, lab.page_num ∈ pns grp.2) ∧
        lab ∈ unmatchedLabels (processLabelPages ltexts)
          (matchAll (processChecklistPages ctexts) (processLabelPages ltexts) mapping).2)) ∧
    (∀ grp ∈ (matchAll (processChecklistPages ctexts) (processLabelPages ltexts)
        mapping).1, (pns grp.2).Nodup) := by
  constructor
  · intro lab hlab
    by_cases hg : lab.page_num ∈
        (matchAll (processChecklistPages ctexts) (processLabelPages ltexts) mapping).2
    · left
      refine ⟨(mem_matchedSet_iff _ _ _ _).mp hg, fun hu => ?_⟩
      exact ((mem_unmatchedLabels_iff _ _ _).mp hu).2 hg
    · right
      exact ⟨fun hex => hg ((mem_matchedSet_iff _ _ _ _).mpr hex),
        (mem_unmatchedLabels_iff _ _ _).mpr ⟨hlab, hg⟩⟩
  · intro grp hgrp
    rw [matchAll_eq] at hgrp
    simp only [List.mem_map] at hgrp
    rcases hgrp with ⟨ck, _, rfl⟩
    exact pnDedupAux_pns_nodup [] _

/-- Witness for C1 (amended) at a run with one matched and one unmatched
label. -/
theorem C1_witness :
    ((∃ grp ∈ (matchAll (processChecklistPages ["N5-96TU-TT9Z 1"])
          (processLabelPages ["N5-96TU-TT9Z", "zzz"]) (fun _ => none)).1,
        (⟨2, none, 1, "zzz"⟩ : LabelPage).page_num ∈ pns grp.2) ∧
      (⟨2, none, 1, "zzz"⟩ : LabelPage) ∉
        unmatchedLabels (processLabelPages ["N5-96TU-TT9Z", "zzz"])
          (matchAll (processChecklistPages ["N5-96TU-TT9Z 1"])
            (processLabelPages ["N5-96TU-TT9Z", "zzz"]) (fun _ => none)).2) ∨
    ((¬ ∃ grp ∈ (matchAll (processChecklistPages ["N5-96TU-TT9Z 1"])
          (processLabelPages ["N5-96TU-TT9Z", "zzz"]) (fun _ => none)).1,
        (⟨2, none, 1, "zzz"⟩ : LabelPage).page_num ∈ pns grp.2) ∧
      (⟨2, none, 1, "zzz"⟩ : LabelPage) ∈
        unmatchedLabels (processLabelPages ["N5-96TU-TT9Z", "zzz"])
          (matchAll (processChecklistPages ["N5-96TU-TT9Z 1"])
            (processLabelPages ["N5-96TU-TT9Z", "zzz"]) (fun _ => none)).2) :=
  (C1_partition ["N5-96TU-TT9Z 1"] ["N5-96TU-TT9Z", "zzz"] (fun _ => none)).1
    ⟨2, none, 1, "zzz"⟩ (by decide)

theorem resolveCode_nil (mapping : String → Option String) (sku : String) :
    resolveCode [] mapping sku = [] := by
  rw [resolveCode]
  cases mapping sku <;> simp [labels_by_sku]

theorem canonMatch_nil (mapping : String → Option String) (ck : ChecklistPage) :
    canonMatch [] mapping ck = [] := by
  rw [canonMatch]
  have hmap : ck.skus.map (resolveCode [] mapping) =
      ck.skus.map (fun _ => ([] : List LabelPage)) :=
    List.map_congr_left (fun s _ => resolveCode_nil mapping s)
  rw [hmap]
  induction ck.skus with
  | nil => rfl
  | cons s ss ih => simpa using ih

/-- Counterexample to claim C9 as stated: a labels document that is present
but has ZERO pages is not rejected — the request completes and produces an
assembled document (one summary page and one shortage-annotated checklist
page), instead of failing with an input error. -/
theorem C9_counterexample :
    organize_pdfs (some ["N5-96TU-TT9Z 1"]) (some []) (fun _ => none) =
      Except.ok [OutPage.summary, OutPage.checklist 1 1 0] := by rfl

/-- Claim C9 (amended): a MISSING checklist or labels file fails immediately
with an error and nothing is processed, and a checklist document with no
pages fails with the no-SKUs error; but an EMPTY labels document is not an
error — the pipeline completes normally, every group simply gets no
labels. -/
theorem C9_input_validation :
    (∀ lf mapping, organize_pdfs none lf mapping =
      Except.error "No checklist file uploaded") ∧
    (∀ cf mapping, organize_pdfs (some cf) none mapping =
      Except.error "No labels file uploaded") ∧
    (∀ lt mapping, organize_pdfs (some []) (some lt) mapping =
      Except.error "No SKUs found in checklist PDF") ∧
    (∀ ctexts mapping, processChecklistPages ctexts ≠ [] →
      organize_pdfs (some ctexts) (some []) mapping =
        Except.ok (assemble
          ((processChecklistPages ctexts).map (fun ck => (ck, []))) [])) := by
  refine ⟨fun _ _ => rfl, fun _ _ => rfl, fun _ _ => rfl, ?_⟩
  intro ctexts mapping h
  have hne : (processChecklistPages ctexts).isEmpty = false := by
    simpa [List.isEmpty_iff] using h
  rw [organize_pdfs]
  simp only [hne, Bool.false_eq_true, if_false]
  have hlabels : processLabelPages [] = [] := rfl
  rw [hlabels, matchAll_eq]
  have hmap : (processChecklistPages ctexts).map
        (fun ck => (ck, canonMatch [] mapping ck)) =
      (processChecklistPages ctexts).map (fun ck => (ck, ([] : List LabelPage))) :=
    List.map_congr_left (fun ck _ => by rw [canonMatch_nil])
  rw [hmap]
  rfl

/-- Witness for C9 (amended, empty-labels conjunct) at a one-page
checklist. -/
theorem C9_witness :
    organize_pdfs (some ["N5-96TU-TT9Z 1"]) (some []) (fun _ => none) =
      Except.ok (assemble
        ((processChecklistPages ["N5-96TU-TT9Z 1"]).map (fun ck => (ck, []))) []) :=
  C9_input_validation.2.2.2 ["N5-96TU-TT9Z 1"] (fun _ => none) (by decide)

theorem processLabelAux_sku (i : Nat) (ts : List String) (lab : LabelPage)
    (h : lab ∈ processLabelAux i ts) :
    lab.sku = (extract_skus_from_text lab.text).head? := by
  induction ts generalizing i with
  | nil => simp [processLabelAux] at h
  | cons t ts ih =>
      simp only [processLabelAux, List.mem_cons] at h
      rcases h with h | h
      · subst h; rfl
      · exact ih (i + 1) h

theorem mem_labels_by_sku_iff (labels : List LabelPage) (c : String) (lab : LabelPage) :
    lab ∈ labels_by_sku labels c ↔ lab ∈ labels ∧ lab.sku = some c := by
  rw [labels_by_sku, List.mem_filter]
  simp

theorem resolveCode_mem (labels : List LabelPage) (mapping : String → Option String)
    (sku : String) (lab : LabelPage) (h : lab ∈ resolveCode labels mapping sku) :
    ∃ c, lab ∈ labels_by_sku labels c := by
  rw [resolveCode] at h
  split at h
  · exact ⟨sku, h⟩
  · cases hm : mapping sku with
    | none => rw [hm] at h; simp at h
    | some mapped =>
        rw [hm] at h
        split at h
        · split at h
          · exact ⟨_, h⟩
          · simp at h
        · simp at h

/-- Claim C10: a label participates in matching only through its first
extracted item code.  Every processed label's `sku` field is the head of its
extracted code sequence; the bucket of code `c` contains exactly the labels
whose `sku` field is `c`; and every label assigned to any MatchGroup got
there through the bucket of its own `sku` — so a label is never matched via
any code after the first, even if a checklist lists one of its later
codes. -/
theorem C10_first_code_only :
    (∀ (ltexts : List String) (lab : LabelPage), lab ∈ processLabelPages ltexts →
      lab.sku = (extract_skus_from_text lab.text).head?) ∧
    (∀ (labels : List LabelPage) (c : String) (lab : LabelPage),
      lab ∈ labels_by_sku labels c ↔ lab ∈ labels ∧ lab.sku = some c) ∧
    (∀ (checklists : List ChecklistPage) (labels : List LabelPage)
        (mapping : String → Option String) (grp : ChecklistPage × List LabelPage)
        (lab : LabelPage),
      grp ∈ (matchAll checklists labels mapping).1 → lab ∈ grp.2 →
      ∃ c, lab.sku = some c ∧ lab ∈ labels_by_sku labels c) := by
  refine ⟨fun ltexts lab h => processLabelAux_sku 0 ltexts lab h,
    mem_labels_by_sku_iff, ?_⟩
  intro checklists labels mapping grp lab hgrp hlab
  rw [matchAll_eq] at hgrp
  simp only [List.mem_map] at hgrp
  rcases hgrp with ⟨ck, _, rfl⟩
  have hsub : lab ∈ ((ck.skus.map (resolveCode labels mapping)).flatten) :=
    (pnDedupAux_sublist [] _).mem hlab
  rcases List.mem_flatten.mp hsub with ⟨block, hblock, hlab2⟩
  rcases List.mem_map.mp hblock with ⟨sku, _, rfl⟩
  rcases resolveCode_mem labels mapping sku lab hlab2 with ⟨c, hc⟩
  exact ⟨c, ((mem_labels_by_sku_iff labels c lab).mp hc).2, hc⟩

/-- Witness for C10: a label whose text carries two recognizable codes is
keyed (and matched) under the first only. -/
theorem C10_witness :
    ∃ c, (⟨1, some "N5-96TU-TT9Z", 1, "N5-96TU-TT9Z B0090IFLG6"⟩ : LabelPage).sku =
        some c ∧
      (⟨1, some "N5-96TU-TT9Z", 1, "N5-96TU-TT9Z B0090IFLG6"⟩ : LabelPage) ∈
        labels_by_sku (processLabelPages ["N5-96TU-TT9Z B0090IFLG6"]) c :=
  C10_first_code_only.2.2 (processChecklistPages ["N5-96TU-TT9Z 1"])
    (processLabelPages ["N5-96TU-TT9Z B0090IFLG6"]) (fun _ => none)
    ((matchAll (processChecklistPages ["N5-96TU-TT9Z 1"])
      (processLabelPages ["N5-96TU-TT9Z B0090IFLG6"]) (fun _ => none)).1.get
        ⟨0, by decide⟩)
    ⟨1, some "N5-96TU-TT9Z", 1, "N5-96TU-TT9Z B0090IFLG6"⟩
    (List.get_mem _ 0 (by decide)) (by decide)

/-! ## Supporting lemmas: page numbering of the processing loops -/

theorem processChecklistAux_pn_gt (n : Nat) (ts : List String) :
    ∀ ck ∈ processChecklistAux n ts, n < ck.page_num := by
  induction ts generalizing n with
  | nil => simp [processChecklistAux]
  | cons t ts ih =>
      intro ck hck
      simp only [processChecklistAux] at hck
      split at hck
      · exact Nat.lt_of_succ_lt (ih (n + 1) ck hck)
      · rcases List.mem_cons.mp hck with h | h
        · subst h; exact Nat.lt_succ_self n
        · exact Nat.lt_of_succ_lt (ih (n + 1) ck h)

theorem processChecklistAux_pn_pairwise (n : Nat) (ts : List String) :
    ((processChecklistAux n ts).map ChecklistPage.page_num).Pairwise (· < ·) := by
  induction ts generalizing n with
  | nil => simp [processChecklistAux]
  | cons t ts ih =>
      simp only [processChecklistAux]
      split
      · exact ih (n + 1)
      · simp only [List.map_cons]
        refine List.pairwise_cons.mpr ⟨?_, ih (n + 1)⟩
        intro p hp
        rcases List.mem_map.mp hp with ⟨ck, hck, rfl⟩
        exact processChecklistAux_pn_gt (n + 1) ts ck hck

theorem processChecklistAux_pn_mem (n : Nat) (ts : List String) (k : Nat) :
    k ∈ (processChecklistAux n ts).map ChecklistPage.page_num ↔
      ∃ j, ∃ hj : j < ts.length, k = n + j + 1 ∧
        extract_skus_from_text (ts.get ⟨j, hj⟩) ≠ [] := by
  induction ts generalizing n with
  | nil => simp [processChecklistAux]
  | cons t ts ih =>
      simp only [processChecklistAux]
      by_cases he : (extract_skus_from_text t).isEmpty
      · rw [if_pos he, ih (n + 1)]
        have ht : extract_skus_from_text t = [] := by simpa [List.isEmpty_iff] using he
        constructor
        · rintro ⟨j, hj, rfl, hne⟩
          exact ⟨j + 1, Nat.succ_lt_succ hj, by omega, by simpa using hne⟩
        · rintro ⟨j, hj, hk, hne⟩
          cases j with
          | zero => simp only [List.get] at hne; exact absurd ht hne
          | succ j0 =>
              exact ⟨j0, Nat.lt_of_succ_lt_succ hj, by omega, by simpa using hne⟩
      · rw [if_neg he]
        have ht : extract_skus_from_text t ≠ [] := by simpa [List.isEmpty_iff] using he
        simp only [List.map_cons, List.mem_cons]
        rw [ih (n + 1)]
        constructor
        · rintro (rfl | ⟨j, hj, rfl, hne⟩)
          · exact ⟨0, Nat.succ_pos _, by omega, by simpa using ht⟩
          · exact ⟨j + 1, Nat.succ_lt_succ hj, by omega, by simpa using hne⟩
        · rintro ⟨j, hj, hk, hne⟩
          cases j with
          | zero => exact Or.inl (by omega)
          | succ j0 =>
              exact Or.inr ⟨j0, Nat.lt_of_succ_lt_succ hj, by omega, by simpa using hne⟩

theorem processLabelAux_pn_gt (n : Nat) (ts : List String) :
    ∀ lab ∈ processLabelAux n ts, n < lab.page_num := by
  induction ts generalizing n with
  | nil => simp [processLabelAux]
  | cons t ts ih =>
      intro lab hlab
      rcases List.mem_cons.mp hlab with h | h
      · subst h; exact Nat.lt_succ_self n
      · exact Nat.lt_of_succ_lt (ih (n + 1) lab h)

theorem processLabelAux_pn_pairwise (n : Nat) (ts : List String) :
    (pns (processLabelAux n ts)).Pairwise (· < ·) := by
  induction ts generalizing n with
  | nil => simp [processLabelAux, pns]
  | cons t ts ih =>
      simp only [processLabelAux, pns, List.map_cons]
      refine List.pairwise_cons.mpr ⟨?_, ih (n + 1)⟩
      intro p hp
      rcases List.mem_map.mp hp with ⟨lab, hlab, rfl⟩
      exact processLabelAux_pn_gt (n + 1) ts lab hlab

theorem processLabelPages_pn_nodup (ts : List String) :
    (pns (processLabelPages ts)).Nodup := by
  exact (processLabelAux_pn_pairwise 0 ts).imp (fun h => Nat.ne_of_lt h)

/-! ## Supporting lemmas: page counting in the assembled output -/

theorem countP_ck_label_map (k : Nat) (ls : List LabelPage) :
    (ls.map (fun l => OutPage.label l.page_num)).countP (isCk k) = 0 := by
  induction ls with
  | nil => rfl
  | cons l ls ih => simp [List.countP_cons, ih, isCk]

theorem countP_ck_assemble (k : Nat) (groups : List (ChecklistPage × List LabelPage))
    (unmatched : List LabelPage) :
    (assemble groups unmatched).countP (isCk k) =
      (groups.map (fun g => g.1.page_num)).count k := by
  rw [assemble]
  rw [List.countP_cons]
  have hsum : (isCk k OutPage.summary) = false := rfl
  rw [List.countP_append]
  have htail :
      (if unmatched.isEmpty then ([] : List OutPage)
       else OutPage.separator unmatched.length ::
         unmatched.map (fun l => OutPage.label l.page_num)).countP (isCk k) = 0 := by
    split
    · rfl
    · rw [List.countP_cons]
      simp [countP_ck_label_map, isCk]
  rw [htail, hsum]
  simp only [if_false, Nat.add_zero, Bool.false_eq_true]
  induction groups with
  | nil => rfl
  | cons g gs ih =>
      simp only [List.map_cons, List.flatten_cons, List.countP_append, groupPages,
        List.countP_cons, countP_ck_label_map, List.count_cons]
      rw [ih]
      simp [isCk, List.count_cons, Nat.add_comm]

theorem countP_lb_label_map (p : Nat) (ls : List LabelPage) :
    (ls.map (fun l => OutPage.label l.page_num)).countP (isLb p) = (pns ls).count p := by
  induction ls with
  | nil => rfl
  | cons l ls ih =>
      simp only [List.map_cons, List.countP_cons, pns, List.count_cons]
      rw [ih]
      simp [isLb, pns]

theorem count_eq_ite_of_nodup (p : Nat) (l : List Nat) (hnd : l.Nodup) :
    l.count p = if l.contains p then 1 else 0 := by
  by_cases h : p ∈ l
  · rw [if_pos (List.elem_eq_true_of_mem h)]
    exact List.count_eq_one_of_mem hnd h
  · rw [if_neg (by simpa using h)]
    exact List.count_eq_zero_of_not_mem h

theorem countP_lb_flatten (p : Nat) (groups : List (ChecklistPage × List LabelPage))
    (hnd : ∀ g ∈ groups, (pns g.2).Nodup) :
    ((groups.map groupPages).flatten).countP (isLb p) =
      groups.countP (fun g => (pns g.2).contains p) := by
  induction groups with
  | nil => rfl
  | cons g gs ih =>
      simp only [List.map_cons, List.flatten_cons, List.countP_append, groupPages,
        List.countP_cons]
      rw [countP_lb_label_map, ih (fun g hg => hnd g (List.mem_cons_of_mem _ hg)),
        count_eq_ite_of_nodup p (pns g.2) (hnd g (List.mem_cons_self _ _))]
      simp only [isLb, Bool.false_eq_true, if_false]
      omega

theorem countP_lb_assemble (p : Nat) (groups : List (ChecklistPage × List LabelPage))
    (unmatched : List LabelPage) (hnd : ∀ g ∈ groups, (pns g.2).Nodup) :
    (assemble groups unmatched).countP (isLb p) =
      groups.countP (fun g => (pns g.2).contains p) + (pns unmatched).count p := by
  rw [assemble, List.countP_cons, List.countP_append,
    countP_lb_flatten p groups hnd]
  have htail :
      (if unmatched.isEmpty then ([] : List OutPage)
       else OutPage.separator unmatched.length ::
         unmatched.map (fun l => OutPage.label l.page_num)).countP (isLb p) =
      (pns unmatched).count p := by
    split
    · rename_i hemp
      have : unmatched = [] := by simpa [List.isEmpty_iff] using hemp
      subst this
      rfl
    · rw [List.countP_cons, countP_lb_label_map]
      simp [isLb]
  rw [htail]
  simp [isLb]

theorem organize_ok_eq (ctexts ltexts : List String) (mapping : String → Option String)
    (out : List OutPage)
    (hout : organize_pdfs (some ctexts) (some ltexts) mapping = Except.ok out) :
    out = assemble
      (matchAll (processChecklistPages ctexts) (processLabelPages ltexts) mapping).1
      (unmatchedLabels (processLabelPages ltexts)
        (matchAll (processChecklistPages ctexts) (processLabelPages ltexts) mapping).2) := by
  rw [organize_pdfs] at hout
  by_cases h : (processChecklistPages ctexts).isEmpty
  · rw [if_pos h] at hout; cases hout
  · rw [if_neg h] at hout
    exact (Except.ok.injEq _ _).mp hout.symm |>.symm ▸ rfl

theorem matchAll_group_nodup (checklists : List ChecklistPage) (labels : List LabelPage)
    (mapping : String → Option String) :
    ∀ grp ∈ (matchAll checklists labels mapping).1, (pns grp.2).Nodup := by
  intro grp hgrp
  rw [matchAll_eq] at hgrp
  simp only [List.mem_map] at hgrp
  rcases hgrp with ⟨ck, _, rfl⟩
  exact pnDedupAux_pns_nodup [] _

theorem pns_unmatched_sublist (labels : List LabelPage) (g : List Nat) :
    (pns (unmatchedLabels labels g)).Sublist (pns labels) :=
  (List.filter_sublist labels).map LabelPage.page_num

theorem count_pns_unmatched (labels : List LabelPage) (g : List Nat) (lab : LabelPage)
    (hnd : (pns labels).Nodup) (hlab : lab ∈ labels) :
    (pns (unmatchedLabels labels g)).count lab.page_num =
      if lab.page_num ∈ g then 0 else 1 := by
  by_cases hg : lab.page_num ∈ g
  · rw [if_pos hg]
    apply List.count_eq_zero_of_not_mem
    intro hmem
    rcases List.mem_map.mp hmem with ⟨lab2, hlab2, hpn⟩
    have := ((mem_unmatchedLabels_iff labels g lab2).mp hlab2).2
    rw [hpn] at this
    exact this hg
  · rw [if_neg hg]
    apply List.count_eq_one_of_mem ((hnd.sublist (pns_unmatched_sublist labels g)))
    exact List.mem_map_of_mem _ ((mem_unmatchedLabels_iff labels g lab).mpr ⟨hlab, hg⟩)

/-- Counterexample to claim C2 as stated: checklist page 2 has no
recognizable item code and is silently DROPPED from the output (no
`OutPage.checklist 2 _ _` appears), while label page 1 — listed by both
checklist pages 1 and 3 — appears TWICE.  Input pages do not appear exactly
once. -/
theorem C2_counterexample :
    organize_pdfs (some ["N5-96TU-TT9Z 1", "xxx", "N5-96TU-TT9Z 1"])
        (some ["N5-96TU-TT9Z"]) (fun _ => none) =
      Except.ok [OutPage.summary, OutPage.checklist 1 1 1, OutPage.label 1,
        OutPage.checklist 3 1 1, OutPage.label 1] := by rfl

/-- Claim C2 (amended): in the assembled output, source checklist page
`j+1` appears exactly once if some item code was recognized on it and ZERO
times otherwise (code-less checklist pages are dropped); each source label
page appears once per MatchGroup that contains it plus once in the unmatched
section when unmatched — in particular at least once (labels are never
dropped, but may be duplicated across groups). -/
theorem C2_page_accounting (ctexts ltexts : List String)
    (mapping : String → Option String) (out : List OutPage)
    (hout : organize_pdfs (some ctexts) (some ltexts) mapping = Except.ok out) :
    (∀ j (hj : j < ctexts.length),
      out.countP (isCk (j + 1)) =
        if extract_skus_from_text (ctexts.get ⟨j, hj⟩) = [] then 0 else 1) ∧
    (∀ lab ∈ processLabelPages ltexts,
      out.countP (isLb lab.page_num) =
        (matchAll (processChecklistPages ctexts) (processLabelPages ltexts)
          mapping).1.countP (fun g => (pns g.2).contains lab.page_num) +
        (if lab.page_num ∈ (matchAll (processChecklistPages ctexts)
            (processLabelPages ltexts) mapping).2 then 0 else 1) ∧
      1 ≤ out.countP (isLb lab.page_num)) := by
  rw [organize_ok_eq ctexts ltexts mapping out hout]
  constructor
  · intro j hj
    rw [countP_ck_assemble]
    have hmapeq : ((matchAll (processChecklistPages ctexts) (processLabelPages ltexts)
          mapping).1.map (fun g => g.1.page_num)) =
        (processChecklistPages ctexts).map ChecklistPage.page_num := by
      rw [matchAll_eq]
      simp only [List.map_map]
      rfl
    rw [hmapeq]
    have hnd : ((processChecklistPages ctexts).map ChecklistPage.page_num).Nodup :=
      (processChecklistAux_pn_pairwise 0 ctexts).imp (fun h => Nat.ne_of_lt h)
    by_cases hext : extract_skus_from_text (ctexts.get ⟨j, hj⟩) = []
    · rw [if_pos hext]
      apply List.count_eq_zero_of_not_mem
      intro hmem
      rcases (processChecklistAux_pn_mem 0 ctexts (j + 1)).mp hmem with ⟨j2, hj2, heq, hne⟩
      have hjj : j2 = j := by omega
      subst hjj
      exact hne hext
    · rw [if_neg hext]
      apply List.count_eq_one_of_mem hnd
      exact (processChecklistAux_pn_mem 0 ctexts (j + 1)).mpr ⟨j, hj, by omega, hext⟩
  · intro lab hlab
    rw [countP_lb_assemble _ _ _
      (matchAll_group_nodup (processChecklistPages ctexts) (processLabelPages ltexts)
        mapping)]
    rw [count_pns_unmatched _ _ lab (processLabelPages_pn_nodup ltexts) hlab]
    refine ⟨rfl, ?_⟩
    by_cases hg : lab.page_num ∈
        (matchAll (processChecklistPages ctexts) (processLabelPages ltexts) mapping).2
    · rcases (mem_matchedSet_iff _ _ _ _).mp hg with ⟨grp, hgrp, hpn⟩
      have hpos : 0 < (matchAll (processChecklistPages ctexts)
          (processLabelPages ltexts) mapping).1.countP
            (fun g => (pns g.2).contains lab.page_num) := by
        rw [List.countP_pos_iff]
        exact ⟨grp, hgrp, by simpa using hpn⟩
      omega
    · rw [if_neg hg]
      omega

/-- Witness for C2 (amended): in the concrete run above, source checklist
page 2 (text `"xxx"`, no codes) appears zero times. -/
theorem C2_witness :
    ([OutPage.summary, OutPage.checklist 1 1 1, OutPage.label 1,
      OutPage.checklist 3 1 1, OutPage.label 1] : List OutPage).countP (isCk 2) =
      if extract_skus_from_text
          ((["N5-96TU-TT9Z 1", "xxx", "N5-96TU-TT9Z 1"] : List String).get
            ⟨1, by decide⟩) = []
      then 0 else 1 :=
  (C2_page_accounting ["N5-96TU-TT9Z 1", "xxx", "N5-96TU-TT9Z 1"] ["N5-96TU-TT9Z"]
    (fun _ => none)
    [OutPage.summary, OutPage.checklist 1 1 1, OutPage.label 1,
      OutPage.checklist 3 1 1, OutPage.label 1] (by rfl)).1 1 (by decide)

/-! ## Supporting lemmas: ordering of the assembled output -/

theorem filterMap_ckPn_label_map (ls : List LabelPage) :
    (ls.map (fun l => OutPage.label l.page_num)).filterMap checklistPnOf = [] := by
  induction ls with
  | nil => rfl
  | cons l ls ih => simp [List.filterMap_cons, checklistPnOf, ih]

theorem filterMap_ckPn_flatten (groups : List (ChecklistPage × List LabelPage)) :
    ((groups.map groupPages).flatten).filterMap checklistPnOf =
      groups.map (fun g => g.1.page_num) := by
  induction groups with
  | nil => rfl
  | cons g gs ih =>
      simp only [List.map_cons, List.flatten_cons, List.filterMap_append, groupPages,
        List.filterMap_cons]
      rw [filterMap_ckPn_label_map, ih]
      rfl

theorem filterMap_ckPn_assemble (groups : List (ChecklistPage × List LabelPage))
    (unmatched : List LabelPage) :
    (assemble groups unmatched).filterMap checklistPnOf =
      groups.map (fun g => g.1.page_num) := by
  rw [assemble, List.filterMap_cons]
  have hsum : checklistPnOf OutPage.summary = none := rfl
  rw [hsum, List.filterMap_append]
  have htail :
      (if unmatched.isEmpty then ([] : List OutPage)
       else OutPage.separator unmatched.length ::
         unmatched.map (fun l => OutPage.label l.page_num)).filterMap checklistPnOf
        = [] := by
    split
    · rfl
    · rw [List.filterMap_cons]
      have hsep : checklistPnOf (OutPage.separator unmatched.length) = none := rfl
      rw [hsep, filterMap_ckPn_label_map]
  rw [htail, List.append_nil, filterMap_ckPn_flatten]

theorem pnDedupAux_append (seen : List Nat) (L1 L2 : List LabelPage) :
    pnDedupAux seen (L1 ++ L2) =
      pnDedupAux seen L1 ++ pnDedupAux (pns (pnDedupAux seen L1) ++ seen) L2 := by
  induction L1 generalizing seen with
  | nil => simp [pnDedupAux, pns]
  | cons l ls ih =>
      have hcons : (l :: ls) ++ L2 = l :: (ls ++ L2) := rfl
      rw [hcons]
      simp only [pnDedupAux]
      by_cases hl : l.page_num ∈ seen
      · rw [if_pos hl, if_pos hl, ih seen]
      · rw [if_neg hl, if_neg hl, ih (l.page_num :: seen)]
        simp only [pns, List.map_cons, List.cons_append]
        congr 2
        apply pnDedupAux_congr
        intro p
        simp only [List.mem_append, List.mem_cons]
        tauto

theorem govIdx_cons_of_mem (b : List LabelPage) (bs : List (List LabelPage))
    (l : LabelPage) (h : l.page_num ∈ pns b) : govIdx (b :: bs) l = 0 := by
  rw [govIdx, List.findIdx_cons]
  have hb : b.any (fun x => x.page_num == l.page_num) = true := by
    rcases List.mem_map.mp h with ⟨x, hx, hpn⟩
    exact List.any_eq_true.mpr ⟨x, hx, by simp [hpn]⟩
  rw [hb]
  rfl

theorem govIdx_cons_of_not_mem (b : List LabelPage) (bs : List (List LabelPage))
    (l : LabelPage) (h : l.page_num ∉ pns b) : govIdx (b :: bs) l = govIdx bs l + 1 := by
  rw [govIdx, List.findIdx_cons]
  have hb : b.any (fun x => x.page_num == l.page_num) = false := by
    rw [List.any_eq_false]
    intro x hx
    simp only [beq_iff_eq]
    intro heq
    exact h (List.mem_map.mpr ⟨x, hx, heq⟩)
  rw [hb]
  rfl

theorem pnDedupAux_gov_pairwise (blocks : List (List LabelPage)) (seen : List Nat)
    (hb : ∀ b ∈ blocks, (pns b).Pairwise (· < ·)) :
    (pnDedupAux seen blocks.flatten).Pairwise (fun a c =>
      govIdx blocks a < govIdx blocks c ∨
      (govIdx blocks a = govIdx blocks c ∧ a.page_num < c.page_num)) := by
  induction blocks generalizing seen with
  | nil => simp [pnDedupAux]
  | cons b bs ih =>
      rw [List.flatten_cons, pnDedupAux_append]
      have hD1sub : (pnDedupAux seen b).Sublist b := pnDedupAux_sublist seen b
      have hD1mem : ∀ l ∈ pnDedupAux seen b, l.page_num ∈ pns b := by
        intro l hl
        exact List.mem_map_of_mem _ (hD1sub.mem hl)
      have hD2mem : ∀ l ∈ pnDedupAux (pns (pnDedupAux seen b) ++ seen) bs.flatten,
          l.page_num ∉ pns b := by
        intro l hl hmem
        have hpn : l.page_num ∈ pns (pnDedupAux (pns (pnDedupAux seen b) ++ seen)
            bs.flatten) := List.mem_map_of_mem _ hl
        have hns := (pnDedupAux_pn_mem _ _ _).mp hpn
        by_cases hseen : l.page_num ∈ seen
        · exact hns.2 (List.mem_append_right _ hseen)
        · have : l.page_num ∈ pns (pnDedupAux seen b) :=
            (pnDedupAux_pn_mem seen b l.page_num).mpr ⟨hmem, hseen⟩
          exact hns.2 (List.mem_append_left _ this)
      apply List.pairwise_append.mpr
      refine ⟨?_, ?_, ?_⟩
      · have hp : (pns (pnDedupAux seen b)).Pairwise (· < ·) :=
          (hb b (List.mem_cons_self _ _)).sublist (hD1sub.map _)
        have hp2 : (pnDedupAux seen b).Pairwise
            (fun a c => a.page_num < c.page_num) := (List.pairwise_map).mp hp
        apply hp2.imp_of_mem
        intro a c ha hc hlt
        exact Or.inr ⟨by rw [govIdx_cons_of_mem b bs a (hD1mem a ha),
          govIdx_cons_of_mem b bs c (hD1mem c hc)], hlt⟩
      · have ih2 := ih (pns (pnDedupAux seen b) ++ seen)
          (fun b2 hb2 => hb b2 (List.mem_cons_of_mem _ hb2))
        apply ih2.imp_of_mem
        intro a c ha hc hr
        rw [govIdx_cons_of_not_mem b bs a (hD2mem a ha),
          govIdx_cons_of_not_mem b bs c (hD2mem c hc)]
        rcases hr with hr | ⟨hr1, hr2⟩
        · exact Or.inl (by omega)
        · exact Or.inr ⟨by omega, hr2⟩
      · intro a ha c hc
        rw [govIdx_cons_of_mem b bs a (hD1mem a ha),
          govIdx_cons_of_not_mem b bs c (hD2mem c hc)]
        exact Or.inl (Nat.succ_pos _)

theorem labels_by_sku_pns_pairwise (labels : List LabelPage) (c : String)
    (h : (pns labels).Pairwise (· < ·)) :
    (pns (labels_by_sku labels c)).Pairwise (· < ·) :=
  h.sublist ((List.filter_sublist labels).map _)

theorem resolveCode_pns_pairwise (labels : List LabelPage)
    (mapping : String → Option String) (sku : String)
    (h : (pns labels).Pairwise (· < ·)) :
    (pns (resolveCode labels mapping sku)).Pairwise (· < ·) := by
  rw [resolveCode]
  split
  · exact labels_by_sku_pns_pairwise labels sku h
  · cases mapping sku with
    | none => simp [pns]
    | some mapped =>
        simp only []
        split
        · exact labels_by_sku_pns_pairwise labels mapped h
        · simp [pns]

/-- Claim C8: checklist groups appear in the assembled output in ascending
source-page order, and within each group the labels are exactly the
first-occurrence dedup of the per-code buckets concatenated in checklist
code order (each bucket in label source order); consequently the group's
labels are sorted lexicographically by (position of the governing item code,
source page index). -/
theorem C8_ordering (ctexts ltexts : List String) (mapping : String → Option String)
    (out : List OutPage)
    (hout : organize_pdfs (some ctexts) (some ltexts) mapping = Except.ok out) :
    out.filterMap checklistPnOf =
      (processChecklistPages ctexts).map ChecklistPage.page_num ∧
    (out.filterMap checklistPnOf).Pairwise (· < ·) ∧
    (∀ grp ∈ (matchAll (processChecklistPages ctexts) (processLabelPages ltexts)
        mapping).1,
      grp.2 = pnDedupAux []
        ((grp.1.skus.map (resolveCode (processLabelPages ltexts) mapping)).flatten) ∧
      grp.2.Pairwise (fun a c =>
        govIdx (grp.1.skus.map (resolveCode (processLabelPages ltexts) mapping)) a <
          govIdx (grp.1.skus.map (resolveCode (processLabelPages ltexts) mapping)) c ∨
        (govIdx (grp.1.skus.map (resolveCode (processLabelPages ltexts) mapping)) a =
          govIdx (grp.1.skus.map (resolveCode (processLabelPages ltexts) mapping)) c ∧
         a.page_num < c.page_num))) := by
  have hmapeq : ((matchAll (processChecklistPages ctexts) (processLabelPages ltexts)
        mapping).1.map (fun g => g.1.page_num)) =
      (processChecklistPages ctexts).map ChecklistPage.page_num := by
    rw [matchAll_eq]
    simp only [List.map_map]
    rfl
  have hfm : out.filterMap checklistPnOf =
      (processChecklistPages ctexts).map ChecklistPage.page_num := by
    rw [organize_ok_eq ctexts ltexts mapping out hout, filterMap_ckPn_assemble, hmapeq]
  refine ⟨hfm, ?_, ?_⟩
  · rw [hfm]
    exact processChecklistAux_pn_pairwise 0 ctexts
  · intro grp hgrp
    rw [matchAll_eq] at hgrp
    simp only [List.mem_map] at hgrp
    rcases hgrp with ⟨ck, _, rfl⟩
    refine ⟨rfl, ?_⟩
    apply pnDedupAux_gov_pairwise
    intro b hb
    rcases List.mem_map.mp hb with ⟨sku, _, rfl⟩
    apply resolveCode_pns_pairwise
    exact processLabelAux_pn_pairwise 0 ltexts

/-- Witness for C8 at a run where the label source order (B-code first)
differs from the checklist code order (the hyphenated code first): the
assembled group lists label page 2 before label page 1. -/
theorem C8_witness :
    ([OutPage.summary, OutPage.checklist 1 3 2, OutPage.label 2, OutPage.label 1] :
        List OutPage).filterMap checklistPnOf =
      (processChecklistPages ["N5-96TU-TT9Z 1 B0090IFLG6 2"]).map
        ChecklistPage.page_num :=
  (C8_ordering ["N5-96TU-TT9Z 1 B0090IFLG6 2"] ["B0090IFLG6", "N5-96TU-TT9Z"]
    (fun _ => none)
    [OutPage.summary, OutPage.checklist 1 3 2, OutPage.label 2, OutPage.label 1]
    (by rfl)).1
